import Mathlib

/-!
Verification of the tilequeue SQS queue layer (`tilequeue/queue/sqs.py`).

The embedding models the `SqsQueue` class as a pure state machine.  The
backing stores are modelled by their effects:
  * the Redis set at key `tilequeue.in-flight` is a `Finset Nat` of dedup keys;
  * the SQS delivery queue is a list of `Message`s (body plus an opaque id
    used as the deletion handle), held in arrival order;
  * every operation additionally returns the ordered list of calls it makes
    to the two backing stores (`Event`s), so that ordering and batch-size
    properties of those calls can be stated.

The coordinate codec (`serialize_coord`, `deserialize_coord`,
`coord_marshall_int`, `CoordMessage`) lives in `tilequeue/tile.py`, which is
not part of the sources provided; those definitions are modelled from the
spec and marked as such.
-/

/-- A tile coordinate `(zoom, column, row)`. -/
structure Coord where
  zoom : Nat
  column : Nat
  row : Nat
deriving DecidableEq, Repr

/-- Modelled from the spec: `serialize_coord` of `tilequeue/tile.py` (not under
the provided sources) encodes a coordinate as the canonical wire body, a
UTF-8 string "zoom/column/row". -/
def serialize_coord (coord : Coord) : String :=
  toString coord.zoom ++ "/" ++ toString coord.column ++ "/" ++ toString coord.row

/-- Splits a character list on the slash separator, as `str.split("/")`
does. -/
def splitOnSlash : List Char → List (List Char)
  | [] => [[]]
  | c :: rest =>
    let r := splitOnSlash rest
    if c = '/' then [] :: r
    else (c :: r.headD []) :: r.tail

/-- The numeric value of a decimal digit character, none otherwise. -/
def charDigit (c : Char) : Option Nat :=
  if '0' ≤ c ∧ c ≤ '9' then some (c.toNat - '0'.toNat) else none

/-- Parses a non-empty all-digit character list as a decimal natural
number, none otherwise, as `int(s)` does on the coordinate fields. -/
def natFromChars (cs : List Char) : Option Nat :=
  if cs.isEmpty then none
  else cs.foldl (fun acc c =>
    match acc, charDigit c with
    | some n, some d => some (n * 10 + d)
    | _, _ => none) (some 0)

/-- Modelled from the spec: `deserialize_coord` of `tilequeue/tile.py` (not
under the provided sources) parses a wire body "zoom/column/row" back to a
coordinate and returns none, not an error, on malformed input. -/
def deserialize_coord (body : String) : Option Coord :=
  match splitOnSlash body.data with
  | [z, x, y] =>
    match natFromChars z, natFromChars x, natFromChars y with
    | some zn, some xn, some yn => some (Coord.mk zn xn yn)
    | _, _, _ => none
  | _ => none

/-- Modelled from the spec: `coord_marshall_int` of `tilequeue/tile.py` (not
under the provided sources) packs a coordinate into an unsigned 64-bit dedup
key, low bits holding the zoom and the remaining bits split between column
and row. -/
def coord_marshall_int (coord : Coord) : Nat :=
  (coord.zoom + coord.column * 2 ^ 5 + coord.row * 2 ^ 34) % 2 ^ 64

/-- A message in the delivery queue: the wire body together with an opaque
identifier standing for the SQS receipt handle used for deletion. -/
structure Message where
  id : Nat
  body : String
deriving DecidableEq, Repr

/-- Modelled from the spec: `CoordMessage` of `tilequeue/tile.py` (not under
the provided sources) pairs a decoded coordinate with the transport message
acting as its acknowledgment handle. -/
structure CoordMessage where
  coord : Coord
  message : Message
deriving DecidableEq, Repr

/-- One call made to a backing store (Redis or SQS), recorded in order. -/
inductive Event where
  | redisSismember (key : Nat)
  | redisSadd (keys : List Nat)
  | redisSrem (keys : List Nat)
  | redisDel
  | sqsWrite (body : String)
  | sqsWriteBatch (entries : List (String × String × Nat))
  | sqsGet (n : Nat)
  | sqsDelete (id : Nat)
  | sqsDeleteBatch (ids : List Nat)
deriving DecidableEq, Repr

/-- The state of an `SqsQueue` object together with its two backing stores:
`is_seeding` is the constructor flag, `inflightSet` the Redis set stored at
`self.inflight_key`, `messages` the currently visible delivery-queue
messages in arrival order, and `nextId` a supply of fresh receipt handles. -/
structure SqsState where
  is_seeding : Bool
  inflightSet : Finset Nat
  messages : List Message
  nextId : Nat
deriving DecidableEq

namespace SqsQueue

/-- Embeds `SqsQueue._inflight`: `(not self.is_seeding) and
self.redis_client.sismember(self.inflight_key, coord_marshall_int(coord))`.
The `and` short-circuits, so no membership query is issued when seeding. -/
def inflight (st : SqsState) (coord : Coord) : Bool × List Event :=
  if st.is_seeding then (false, [])
  else (decide (coord_marshall_int coord ∈ st.inflightSet),
        [Event.redisSismember (coord_marshall_int coord)])

/-- Embeds `SqsQueue._add_to_flight`: `sadd` of the coordinate's dedup key. -/
def add_to_flight (st : SqsState) (coord : Coord) : SqsState × List Event :=
  ({ st with inflightSet := insert (coord_marshall_int coord) st.inflightSet },
   [Event.redisSadd [coord_marshall_int coord]])

/-- Embeds `SqsQueue.enqueue`: if the coordinate is not in flight, write one
raw message whose body is `serialize_coord(coord)` and then mark the key
in flight; otherwise do nothing. -/
def enqueue (st : SqsState) (coord : Coord) : SqsState × List Event :=
  let r := inflight st coord
  if r.1 then (st, r.2)
  else
    let payload := serialize_coord coord
    let st1 : SqsState :=
      { st with messages := st.messages ++ [Message.mk st.nextId payload],
                nextId := st.nextId + 1 }
    let r2 := add_to_flight st1 coord
    (r2.1, r.2 ++ [Event.sqsWrite payload] ++ r2.2)

/-- Embeds `SqsQueue._write_batch`: build the `(str(i), serialize_coord(coord),
0)` message tuples and the list of marshalled dedup keys, send the batch to
SQS, then `sadd` all the keys in one bulk call.  (The Python code asserts
`len(coords) <= 10` on entry; the callers' respect of that cap is proved
separately.) -/
def write_batch (st : SqsState) (coords : List Coord) : SqsState × List Event :=
  let msg_tuples := coords.enum.map (fun p => (toString p.1, serialize_coord p.2, (0 : Nat)))
  let values := coords.map coord_marshall_int
  let newMsgs := coords.enum.map (fun p => Message.mk (st.nextId + p.1) (serialize_coord p.2))
  ({ st with messages := st.messages ++ newMsgs,
             nextId := st.nextId + coords.length,
             inflightSet := values.foldl (fun s v => insert v s) st.inflightSet },
   [Event.sqsWriteBatch msg_tuples, Event.redisSadd values])

/-- Embeds the `for coord in coords` loop of `SqsQueue.enqueue_batch`,
carrying the buffer and the two counters: an in-flight coordinate bumps
`n_in_flight`; otherwise the coordinate is buffered, bumping `n_queued`, and
the buffer is flushed through `_write_batch` whenever it reaches 10; a final
non-empty buffer is flushed after the loop. -/
def enqueue_batch_loop (st : SqsState) (coords : List Coord)
    (buffer : List Coord) (n_queued n_in_flight : Nat) :
    SqsState × Nat × Nat × List Event :=
  match coords with
  | [] =>
    if buffer.isEmpty then (st, n_queued, n_in_flight, [])
    else
      let r := write_batch st buffer
      (r.1, n_queued, n_in_flight, r.2)
  | coord :: rest =>
    let r0 := inflight st coord
    if r0.1 then
      let r := enqueue_batch_loop st rest buffer n_queued (n_in_flight + 1)
      (r.1, r.2.1, r.2.2.1, r0.2 ++ r.2.2.2)
    else
      let buffer1 := buffer ++ [coord]
      if buffer1.length = 10 then
        let rw := write_batch st buffer1
        let r := enqueue_batch_loop rw.1 rest [] (n_queued + 1) n_in_flight
        (r.1, r.2.1, r.2.2.1, r0.2 ++ rw.2 ++ r.2.2.2)
      else
        let r := enqueue_batch_loop st rest buffer1 (n_queued + 1) n_in_flight
        (r.1, r.2.1, r.2.2.1, r0.2 ++ r.2.2.2)

/-- Embeds `SqsQueue.enqueue_batch`: run the loop with an empty buffer and
zero counters; returns the state, `(n_queued, n_in_flight)` and the trace. -/
def enqueue_batch (st : SqsState) (coords : List Coord) :
    SqsState × Nat × Nat × List Event :=
  enqueue_batch_loop st coords [] 0 0

/-- Embeds `SqsQueue.read`: receive up to `max_to_read` messages, decode each
body, skip (with no further action) any message whose body fails to decode,
and return the `CoordMessage`s in receive order.  The queue and the Redis
set are untouched, so the state is returned unchanged. -/
def read (st : SqsState) (max_to_read : Nat) :
    SqsState × List CoordMessage × List Event :=
  let messages := st.messages.take max_to_read
  let coord_messages := messages.filterMap (fun m =>
    match deserialize_coord m.body with
    | none => none
    | some coord => some (CoordMessage.mk coord m))
  (st, coord_messages, [Event.sqsGet max_to_read])

/-- Embeds `SqsQueue.job_done`: decode the body, marshal the coordinate,
`srem` its dedup key from the in-flight set, then delete the message.  When
the body does not decode, `deserialize_coord` returns `None` in Python and
`coord_marshall_int(None)` raises before any store is touched: modelled by
returning `none`. -/
def job_done (st : SqsState) (message : Message) :
    Option (SqsState × List Event) :=
  match deserialize_coord message.body with
  | none => none
  | some coord =>
    let coord_int := coord_marshall_int coord
    some ({ st with inflightSet := st.inflightSet.erase coord_int,
                    messages := st.messages.filter (fun m => m.id != message.id) },
          [Event.redisSrem [coord_int], Event.sqsDelete message.id])

/-- The `for message in messages` decode loop of `SqsQueue.jobs_done`:
decodes every body in order, failing as a whole at the first body that does
not decode (in Python `coord_marshall_int(None)` raises there, before any
store is touched). -/
def decode_all : List Message → Option (List Coord)
  | [] => some []
  | m :: rest =>
    match deserialize_coord m.body with
    | none => none
    | some c =>
      match decode_all rest with
      | none => none
      | some cs => some (c :: cs)

/-- Embeds `SqsQueue.jobs_done`: decode every body into `coord_ints` first
(a failing decode raises in Python before any store is touched: modelled by
`none`), then `srem` all the keys in one bulk call, then delete all the
messages in one batch call. -/
def jobs_done (st : SqsState) (messages : List Message) :
    Option (SqsState × List Event) :=
  match decode_all messages with
  | none => none
  | some coords =>
    let coord_ints := coords.map coord_marshall_int
    some ({ st with inflightSet := coord_ints.foldl Finset.erase st.inflightSet,
                    messages := st.messages.filter
                      (fun m => !(messages.any (fun dm => dm.id == m.id))) },
          [Event.redisSrem coord_ints,
           Event.sqsDeleteBatch (messages.map Message.id)])

/-- Embeds the `while True` drain loop of `SqsQueue.clear`: receive up to 10
messages, stop when none arrive, otherwise delete the batch, add its size to
the count and loop. -/
def drain_loop (msgs : List Message) : List Message × Nat × List Event :=
  if h : msgs = [] then (msgs, 0, [Event.sqsGet 10])
  else
    let batch := msgs.take 10
    let remaining := msgs.drop 10
    let r := drain_loop remaining
    (r.1, batch.length + r.2.1,
     Event.sqsGet 10 :: Event.sqsDeleteBatch (batch.map Message.id) :: r.2.2)
termination_by msgs.length
decreasing_by
  have hlen : 0 < msgs.length := List.length_pos.mpr h
  simp only [List.length_drop]
  omega

/-- Embeds `SqsQueue.clear`: delete the Redis in-flight key, then drain the
delivery queue; returns the number of messages deleted. -/
def clear (st : SqsState) : SqsState × Nat × List Event :=
  let r := drain_loop st.messages
  ({ st with inflightSet := ∅, messages := r.1 }, r.2.1, Event.redisDel :: r.2.2)

end SqsQueue

/-- The environment seen by `get_sqs_queue`: which SQS queue names exist (and
the current content of each existing queue), the current Redis set, and
whether the Redis server is reachable. -/
structure SqsEnv where
  queues : String → Option (List Message)
  redisSet : Finset Nat
  redisReachable : Bool

/-- Embeds `get_sqs_queue`: `conn.get_queue(queue_name)` returns the queue or
`None`; the `assert queue is not None` raises on `None` with the message
shown.  `StrictRedis(redis_host, redis_port, redis_db)` only constructs a
client object - the redis-py client connects lazily, so construction makes
no contact with the Redis server and does not consult its reachability.
The resulting `SqsQueue(queue, redis_client)` uses the default
`is_seeding=False`. -/
def get_sqs_queue (env : SqsEnv) (queue_name : String) : Except String SqsState :=
  match env.queues queue_name with
  | none => Except.error ("Could not get sqs queue with name: " ++ queue_name)
  | some msgs =>
    Except.ok { is_seeding := false, inflightSet := env.redisSet,
                messages := msgs, nextId := 0 }

/-- An empty, non-seeding queue state, used to instantiate theorems. -/
def stEmpty : SqsState :=
  { is_seeding := false, inflightSet := ∅, messages := [], nextId := 0 }

/-- An empty queue state in seeding mode, used to instantiate theorems. -/
def stSeed : SqsState :=
  { is_seeding := true, inflightSet := ∅, messages := [], nextId := 0 }

/-- A sample coordinate used to instantiate theorems. -/
def cW : Coord := Coord.mk 1 2 3

/-- A sample message carrying the wire body of `cW`. -/
def mW : Message := Message.mk 0 "1/2/3"

/-- Nine distinct padding coordinates used to instantiate theorems. -/
def padW : List Coord := (List.range 9).map (fun i => Coord.mk 0 0 i)

/-- An environment whose every queue name exists (with an empty queue) but
whose Redis server is unreachable. -/
def envUnreachable : SqsEnv :=
  { queues := fun _ => some [], redisSet := ∅, redisReachable := false }

/-- An environment with no queues at all and a reachable Redis server. -/
def envNoQueue : SqsEnv :=
  { queues := fun _ => none, redisSet := ∅, redisReachable := true }

/-- A message whose body does not decode to a coordinate. -/
def mBad : Message := Message.mk 1 "bad"

/-- A queue state holding one decodable and one undecodable message. -/
def stRead : SqsState :=
  { is_seeding := false, inflightSet := ∅, messages := [mW, mBad], nextId := 2 }

section Helpers

/-- Membership in a left fold of `insert`, as performed by the bulk `sadd`
in `_write_batch`. -/
theorem mem_foldl_insert (values : List Nat) (s : Finset Nat) (k : Nat) :
    k ∈ values.foldl (fun acc v => insert v acc) s ↔ k ∈ s ∨ k ∈ values := by
  induction values generalizing s with
  | nil => simp
  | cons v rest ih =>
    simp only [List.foldl_cons, ih, Finset.mem_insert, List.mem_cons]
    tauto

/-- Mapping a function of the payload over an enumerated list forgets the
indices. -/
theorem enum_map_snd (l : List Coord) (g : Coord → α) :
    l.enum.map (fun p => g p.2) = l.map g := by
  have h : (fun p : Nat × Coord => g p.2) = g ∘ Prod.snd := rfl
  rw [h, ← List.map_map, List.enum_map_snd]

/-- The message bodies appended by `_write_batch` are the serializations of
its input coordinates, in order. -/
theorem write_batch_messages (st : SqsState) (coords : List Coord) :
    (SqsQueue.write_batch st coords).1.messages.map Message.body
      = st.messages.map Message.body ++ coords.map serialize_coord := by
  simp only [SqsQueue.write_batch, List.map_append, List.map_map]
  rw [show (Message.body ∘ fun p : Nat × Coord =>
        Message.mk (st.nextId + p.1) (serialize_coord p.2))
      = (fun p : Nat × Coord => serialize_coord p.2) from rfl]
  rw [enum_map_snd]

/-- `_write_batch` marks exactly its input's dedup keys in flight, on top of
whatever was already there. -/
theorem write_batch_inflightSet (st : SqsState) (coords : List Coord) (k : Nat) :
    k ∈ (SqsQueue.write_batch st coords).1.inflightSet
      ↔ k ∈ st.inflightSet ∨ k ∈ coords.map coord_marshall_int := by
  simp only [SqsQueue.write_batch]
  exact mem_foldl_insert _ _ _

/-- `_write_batch` does not touch the seeding flag. -/
theorem write_batch_is_seeding (st : SqsState) (coords : List Coord) :
    (SqsQueue.write_batch st coords).1.is_seeding = st.is_seeding := rfl

/-- When the coordinate is already in flight (non-seeding), `enqueue` leaves
the state untouched. -/
theorem enqueue_noop_of_inflight (st : SqsState) (c : Coord)
    (hseed : st.is_seeding = false)
    (hmem : coord_marshall_int c ∈ st.inflightSet) :
    (SqsQueue.enqueue st c).1 = st := by
  simp [SqsQueue.enqueue, SqsQueue.inflight, hseed, hmem]

/-- When the coordinate is not in flight (non-seeding), `enqueue` writes one
message with its serialized body and inserts its dedup key. -/
theorem enqueue_state_of_not_inflight (st : SqsState) (c : Coord)
    (hseed : st.is_seeding = false)
    (hmem : coord_marshall_int c ∉ st.inflightSet) :
    (SqsQueue.enqueue st c).1
      = { st with
          messages := st.messages ++ [Message.mk st.nextId (serialize_coord c)],
          nextId := st.nextId + 1,
          inflightSet := insert (coord_marshall_int c) st.inflightSet } := by
  simp [SqsQueue.enqueue, SqsQueue.inflight, SqsQueue.add_to_flight, hseed, hmem]

end Helpers

/-- C1: on a non-seeding queue, `enqueue(C)` is a no-op when `C`'s dedup key
is already in the in-flight index; otherwise it pushes exactly one message
whose body is the encoding of `C` and then adds the key to the index; hence
two sequential `enqueue(C)` with no intervening acknowledge leave exactly
one message for `C` in the delivery queue. -/
theorem C1_enqueue_dedup (st : SqsState) (c : Coord)
    (hseed : st.is_seeding = false) :
    (coord_marshall_int c ∈ st.inflightSet → (SqsQueue.enqueue st c).1 = st) ∧
    (coord_marshall_int c ∉ st.inflightSet →
      (SqsQueue.enqueue st c).1.messages
          = st.messages ++ [Message.mk st.nextId (serialize_coord c)] ∧
      (SqsQueue.enqueue st c).1.inflightSet
          = insert (coord_marshall_int c) st.inflightSet) ∧
    (coord_marshall_int c ∉ st.inflightSet →
      st.messages.countP (fun m => m.body == serialize_coord c) = 0 →
      (SqsQueue.enqueue (SqsQueue.enqueue st c).1 c).1.messages.countP
          (fun m => m.body == serialize_coord c) = 1) := by
  refine ⟨fun hmem => enqueue_noop_of_inflight st c hseed hmem, fun hmem => ?_, ?_⟩
  · rw [enqueue_state_of_not_inflight st c hseed hmem]
    exact ⟨rfl, rfl⟩
  · intro hmem hcount
    set st1 : SqsState :=
      { st with
        messages := st.messages ++ [Message.mk st.nextId (serialize_coord c)],
        nextId := st.nextId + 1,
        inflightSet := insert (coord_marshall_int c) st.inflightSet } with hst1
    rw [enqueue_state_of_not_inflight st c hseed hmem, ← hst1]
    rw [enqueue_noop_of_inflight st1 c hseed (Finset.mem_insert_self _ _)]
    rw [hst1]
    simp [List.countP_append, hcount, List.countP_cons]

/-- The two counters of the `enqueue_batch` loop always add up to the
counters on entry plus the number of coordinates still to process. -/
theorem enqueue_batch_loop_counts (coords : List Coord) :
    ∀ (st : SqsState) (buffer : List Coord) (q f : Nat),
      (SqsQueue.enqueue_batch_loop st coords buffer q f).2.1 +
        (SqsQueue.enqueue_batch_loop st coords buffer q f).2.2.1
      = q + f + coords.length := by
  induction coords with
  | nil =>
    intro st buffer q f
    by_cases hb : buffer.isEmpty <;>
      simp [SqsQueue.enqueue_batch_loop, hb]
  | cons c rest ih =>
    intro st buffer q f
    cases h0 : (SqsQueue.inflight st c).1
    · by_cases hlen : (buffer ++ [c]).length = 10
      · have := ih (SqsQueue.write_batch st (buffer ++ [c])).1 [] (q + 1) f
        simp only [SqsQueue.enqueue_batch_loop, h0, hlen, if_true,
          Bool.false_eq_true, if_false, List.length_cons]
        omega
      · have := ih st (buffer ++ [c]) (q + 1) f
        simp only [SqsQueue.enqueue_batch_loop, h0, hlen,
          Bool.false_eq_true, if_false, List.length_cons]
        omega
    · have := ih st buffer q (f + 1)
      simp only [SqsQueue.enqueue_batch_loop, h0, if_true, List.length_cons]
      omega

/-- Every batch sent by the `enqueue_batch` loop carries at most 10 entries,
provided the buffer on entry holds at most 9 coordinates. -/
theorem enqueue_batch_loop_cap (coords : List Coord) :
    ∀ (st : SqsState) (buffer : List Coord) (q f : Nat),
      buffer.length ≤ 9 →
      ∀ entries, Event.sqsWriteBatch entries
          ∈ (SqsQueue.enqueue_batch_loop st coords buffer q f).2.2.2 →
      entries.length ≤ 10 := by
  induction coords with
  | nil =>
    intro st buffer q f hb entries hmem
    by_cases hbe : buffer.isEmpty
    · simp [SqsQueue.enqueue_batch_loop, hbe] at hmem
    · simp only [SqsQueue.enqueue_batch_loop, hbe, if_false,
        SqsQueue.write_batch] at hmem
      simp at hmem
      subst hmem
      simp only [List.length_map, List.enum_length]
      omega
  | cons c rest ih =>
    intro st buffer q f hb entries hmem
    cases h0 : (SqsQueue.inflight st c).1
    · by_cases hlen : (buffer ++ [c]).length = 10
      · simp only [SqsQueue.enqueue_batch_loop, h0, hlen, if_true,
          Bool.false_eq_true, if_false, List.mem_append] at hmem
        rcases hmem with (h | h) | h
        · cases h00 : st.is_seeding <;> simp [SqsQueue.inflight, h00] at h
        · simp only [SqsQueue.write_batch] at h
          simp at h
          subst h
          simp only [List.length_map, List.enum_length]
          omega
        · exact ih _ [] (q + 1) f (by simp) entries h
      · simp only [SqsQueue.enqueue_batch_loop, h0, hlen,
          Bool.false_eq_true, if_false, List.mem_append] at hmem
        rcases hmem with h | h
        · cases h00 : st.is_seeding <;> simp [SqsQueue.inflight, h00] at h
        · have hlen2 : (buffer ++ [c]).length ≤ 9 := by
            simp only [List.length_append, List.length_singleton]
            simp only [List.length_append, List.length_singleton] at hlen
            omega
          exact ih st (buffer ++ [c]) (q + 1) f hlen2 entries h
    · simp only [SqsQueue.enqueue_batch_loop, h0, if_true,
        List.mem_append] at hmem
      rcases hmem with h | h
      · cases h00 : st.is_seeding <;> simp [SqsQueue.inflight, h00] at h
      · exact ih st buffer q (f + 1) hb entries h

/-- C2: `enqueue_batch(coords)` returns `(queued, already_inflight)` whose
sum is the length of the input, and every batch call it makes to the
transport carries at most 10 entries. -/
theorem C2_batch_accounting (st : SqsState) (coords : List Coord) :
    (SqsQueue.enqueue_batch st coords).2.1 +
        (SqsQueue.enqueue_batch st coords).2.2.1 = coords.length ∧
    (∀ entries, Event.sqsWriteBatch entries
        ∈ (SqsQueue.enqueue_batch st coords).2.2.2 →
      entries.length ≤ 10) := by
  constructor
  · have := enqueue_batch_loop_counts coords st [] 0 0
    simpa [SqsQueue.enqueue_batch] using this
  · intro entries hmem
    exact enqueue_batch_loop_cap coords st [] 0 0 (by simp) entries hmem

/-- C3: both in `job_done` and in `jobs_done`, the call trace is exactly the
bulk index removal followed by the queue deletion: the dedup keys are
removed from the in-flight index strictly before the messages are deleted
from the delivery queue, never the other way round. -/
theorem C3_ack_order :
    (∀ (st : SqsState) (m : Message) (c : Coord),
      deserialize_coord m.body = some c →
      (SqsQueue.job_done st m).map (fun p => p.2)
        = some [Event.redisSrem [coord_marshall_int c],
                Event.sqsDelete m.id]) ∧
    (∀ (st : SqsState) (msgs : List Message) (cs : List Coord),
      SqsQueue.decode_all msgs = some cs →
      (SqsQueue.jobs_done st msgs).map (fun p => p.2)
        = some [Event.redisSrem (cs.map coord_marshall_int),
                Event.sqsDeleteBatch (msgs.map Message.id)]) := by
  constructor
  · intro st m c hdec
    simp [SqsQueue.job_done, hdec]
  · intro st msgs cs hdec
    unfold SqsQueue.jobs_done
    rw [hdec]
    simp

/-- C3 witness: instantiation at a concrete state and decodable message. -/
theorem C3_ack_order_witness :
    (SqsQueue.job_done stEmpty mW).map (fun p => p.2)
        = some [Event.redisSrem [coord_marshall_int cW],
                Event.sqsDelete mW.id] ∧
    (SqsQueue.jobs_done stEmpty [mW]).map (fun p => p.2)
        = some [Event.redisSrem ([cW].map coord_marshall_int),
                Event.sqsDeleteBatch ([mW].map Message.id)] :=
  ⟨C3_ack_order.1 stEmpty mW cW (by decide),
   C3_ack_order.2 stEmpty [mW] [cW] (by decide)⟩

/-- The messages surviving `read`'s decode step are exactly the received
messages whose body decodes, in received order. -/
theorem read_map_message (l : List Message) :
    (l.filterMap (fun m =>
        match deserialize_coord m.body with
        | none => none
        | some coord => some (CoordMessage.mk coord m))).map CoordMessage.message
      = l.filter (fun m => (deserialize_coord m.body).isSome) := by
  induction l with
  | nil => simp
  | cons hd tl ih =>
    cases hdec : deserialize_coord hd.body <;>
      simp [List.filterMap_cons, hdec, List.filter_cons, ih]

/-- C4: `read(max_n)` returns at most `max_n` coordinate-handle pairs, a
subsequence of the received messages in receive order, each of whose bodies
decodes to the paired coordinate; a message whose body fails to decode is
omitted from the result; and the operation leaves the state untouched,
issuing no deletion and no in-flight index call. -/
theorem C4_read_skips_undecodable (st : SqsState) (n : Nat) :
    (SqsQueue.read st n).1 = st ∧
    (SqsQueue.read st n).2.1.length ≤ n ∧
    ((SqsQueue.read st n).2.1.map CoordMessage.message).Sublist st.messages ∧
    (∀ cm ∈ (SqsQueue.read st n).2.1,
        deserialize_coord cm.message.body = some cm.coord) ∧
    (∀ m ∈ st.messages.take n, deserialize_coord m.body = none →
        ∀ cm ∈ (SqsQueue.read st n).2.1, cm.message ≠ m) ∧
    (SqsQueue.read st n).2.2 = [Event.sqsGet n] := by
  have hdecodes : ∀ cm ∈ (SqsQueue.read st n).2.1,
      deserialize_coord cm.message.body = some cm.coord := by
    intro cm hcm
    simp only [SqsQueue.read, List.mem_filterMap] at hcm
    obtain ⟨m, _, heq⟩ := hcm
    cases hdec : deserialize_coord m.body with
    | none => rw [hdec] at heq; cases heq
    | some c =>
      rw [hdec] at heq
      cases heq
      exact hdec
  refine ⟨rfl, ?_, ?_, hdecodes, ?_, rfl⟩
  · exact le_trans (List.length_filterMap_le _ _)
      (List.length_take_le _ _)
  · have h1 : ((SqsQueue.read st n).2.1.map CoordMessage.message).Sublist
        (st.messages.take n) := by
      simp only [SqsQueue.read]
      rw [read_map_message]
      exact List.filter_sublist _
    exact h1.trans (List.take_sublist _ _)
  · intro m _ hnone cm hcm heq
    have := hdecodes cm hcm
    rw [heq, hnone] at this
    cases this

/-- C5: acknowledging a decodable handle is idempotent: a second `job_done`
on the same handle succeeds and leaves the state exactly where the first
left it; and acknowledging a handle whose in-flight marker is absent and
whose message is already gone succeeds without changing the state at all -
a no-op, not an error. -/
theorem C5_ack_idempotent :
    (∀ (st : SqsState) (m : Message) (c : Coord),
      deserialize_coord m.body = some c →
      (SqsQueue.job_done st m).bind (fun p => SqsQueue.job_done p.1 m)
        = SqsQueue.job_done st m) ∧
    (∀ (st : SqsState) (m : Message) (c : Coord),
      deserialize_coord m.body = some c →
      coord_marshall_int c ∉ st.inflightSet →
      (∀ msg ∈ st.messages, msg.id ≠ m.id) →
      SqsQueue.job_done st m
        = some (st, [Event.redisSrem [coord_marshall_int c],
                     Event.sqsDelete m.id])) := by
  constructor
  · intro st m c hdec
    have h1 : SqsQueue.job_done st m = some
        ({ st with
           inflightSet := st.inflightSet.erase (coord_marshall_int c),
           messages := st.messages.filter (fun x => x.id != m.id) },
         [Event.redisSrem [coord_marshall_int c], Event.sqsDelete m.id]) := by
      unfold SqsQueue.job_done
      rw [hdec]
    rw [h1]
    dsimp only [Option.bind]
    unfold SqsQueue.job_done
    rw [hdec]
    simp [Finset.erase_idem, List.filter_filter]
  · intro st m c hdec hnot hmsg
    unfold SqsQueue.job_done
    rw [hdec]
    dsimp only
    rw [Finset.erase_eq_of_not_mem hnot]
    rw [List.filter_eq_self.mpr (fun msg hm => by
      simpa using hmsg msg hm)]

/-- C5 witness: instantiation at a concrete state and decodable handle. -/
theorem C5_ack_idempotent_witness :
    (SqsQueue.job_done stEmpty mW).bind (fun p => SqsQueue.job_done p.1 mW)
      = SqsQueue.job_done stEmpty mW ∧
    SqsQueue.job_done stEmpty mW
      = some (stEmpty, [Event.redisSrem [coord_marshall_int cW],
                        Event.sqsDelete mW.id]) :=
  ⟨C5_ack_idempotent.1 stEmpty mW cW (by decide),
   C5_ack_idempotent.2 stEmpty mW cW (by decide) (by decide) (by simp [stEmpty])⟩

/-- The drain loop of `clear` removes every visible message and counts all
of them. -/
theorem drain_loop_spec_aux (n : Nat) :
    ∀ msgs : List Message, msgs.length ≤ n →
      (SqsQueue.drain_loop msgs).1 = [] ∧
      (SqsQueue.drain_loop msgs).2.1 = msgs.length := by
  induction n with
  | zero =>
    intro msgs hlen
    have hnil : msgs = [] := List.eq_nil_of_length_eq_zero (by omega)
    subst hnil
    rw [SqsQueue.drain_loop]
    simp
  | succ n ih =>
    intro msgs hlen
    by_cases hne : msgs = []
    · subst hne
      rw [SqsQueue.drain_loop]
      simp
    · rw [SqsQueue.drain_loop]
      simp only [hne, dif_neg, not_false_iff]
      have hlp : 0 < msgs.length := List.length_pos.mpr hne
      have hrec := ih (msgs.drop 10) (by simp only [List.length_drop]; omega)
      refine ⟨hrec.1, ?_⟩
      rw [hrec.2]
      simp only [List.length_take, List.length_drop]
      omega

/-- The drain loop removes every visible message and counts all of them. -/
theorem drain_loop_spec (msgs : List Message) :
    (SqsQueue.drain_loop msgs).1 = [] ∧
    (SqsQueue.drain_loop msgs).2.1 = msgs.length :=
  drain_loop_spec_aux msgs.length msgs le_rfl

/-- C6: `clear()` unconditionally empties the in-flight index, drains every
visible message from the delivery queue, and reports the number of messages
it deleted. -/
theorem C6_clear_drains (st : SqsState) :
    (SqsQueue.clear st).1.inflightSet = ∅ ∧
    (SqsQueue.clear st).1.messages = [] ∧
    (SqsQueue.clear st).2.1 = st.messages.length := by
  have h := drain_loop_spec st.messages
  exact ⟨rfl, h.1, h.2⟩

/-- In seeding mode the `enqueue_batch` loop queues every coordinate,
reports none as in flight, pushes every body, still adds every dedup key to
the index, and never issues a membership query. -/
theorem enqueue_batch_loop_seeding (coords : List Coord) :
    ∀ (st : SqsState) (buffer : List Coord) (q f : Nat),
      st.is_seeding = true →
      (SqsQueue.enqueue_batch_loop st coords buffer q f).2.1
          = q + coords.length ∧
      (SqsQueue.enqueue_batch_loop st coords buffer q f).2.2.1 = f ∧
      (SqsQueue.enqueue_batch_loop st coords buffer q f).1.messages.map
            Message.body
          = st.messages.map Message.body
              ++ (buffer ++ coords).map serialize_coord ∧
      (∀ k ∈ st.inflightSet,
        k ∈ (SqsQueue.enqueue_batch_loop st coords buffer q f).1.inflightSet) ∧
      (∀ c ∈ buffer ++ coords, coord_marshall_int c
          ∈ (SqsQueue.enqueue_batch_loop st coords buffer q f).1.inflightSet) ∧
      (SqsQueue.enqueue_batch_loop st coords buffer q f).1.is_seeding = true ∧
      (∀ k, Event.redisSismember k
          ∉ (SqsQueue.enqueue_batch_loop st coords buffer q f).2.2.2) := by
  induction coords with
  | nil =>
    intro st buffer q f hseed
    by_cases hb : buffer.isEmpty
    · have hbe : buffer = [] := List.isEmpty_iff.mp hb
      subst hbe
      simp [SqsQueue.enqueue_batch_loop, hseed]
    · simp only [SqsQueue.enqueue_batch_loop, hb, Bool.false_eq_true,
        if_false, List.append_nil, List.length_nil, Nat.add_zero]
      refine ⟨trivial, trivial, write_batch_messages st buffer, ?_, ?_,
        by rw [write_batch_is_seeding]; exact hseed, ?_⟩
      · intro k hk
        exact (write_batch_inflightSet st buffer k).mpr (Or.inl hk)
      · intro c hc
        exact (write_batch_inflightSet st buffer _).mpr
          (Or.inr (List.mem_map_of_mem _ hc))
      · intro k hk
        simp [SqsQueue.write_batch] at hk
  | cons c rest ih =>
    intro st buffer q f hseed
    have h0 : (SqsQueue.inflight st c).1 = false := by
      simp [SqsQueue.inflight, hseed]
    have h0ev : (SqsQueue.inflight st c).2 = [] := by
      simp [SqsQueue.inflight, hseed]
    by_cases hlen : (buffer ++ [c]).length = 10
    · obtain ⟨ihq, ihf, ihm, ihpres, ihmem, ihseed, ihev⟩ :=
        ih (SqsQueue.write_batch st (buffer ++ [c])).1 [] (q + 1) f
          (by rw [write_batch_is_seeding]; exact hseed)
      simp only [SqsQueue.enqueue_batch_loop, h0, Bool.false_eq_true,
        if_false, hlen, if_true, h0ev, List.nil_append, List.length_cons]
      refine ⟨by rw [ihq]; omega, ihf, ?_, ?_, ?_, ihseed, ?_⟩
      · rw [ihm, write_batch_messages, List.append_cons buffer c rest]
        simp [List.map_append, List.append_assoc]
      · intro k hk
        exact ihpres k ((write_batch_inflightSet st (buffer ++ [c]) k).mpr
          (Or.inl hk))
      · intro c2 hc2
        rw [List.append_cons buffer c rest] at hc2
        rcases List.mem_append.mp hc2 with h | h
        · exact ihpres _ ((write_batch_inflightSet st (buffer ++ [c]) _).mpr
            (Or.inr (List.mem_map_of_mem _ h)))
        · exact ihmem _ h
      · intro k hk
        rcases List.mem_append.mp hk with h | h
        · simp [SqsQueue.write_batch] at h
        · exact ihev k h
    · obtain ⟨ihq, ihf, ihm, ihpres, ihmem, ihseed, ihev⟩ :=
        ih st (buffer ++ [c]) (q + 1) f hseed
      simp only [SqsQueue.enqueue_batch_loop, h0, Bool.false_eq_true,
        if_false, hlen, h0ev, List.nil_append, List.length_cons]
      refine ⟨by rw [ihq]; omega, ihf, ?_, ihpres, ?_, ihseed, ihev⟩
      · rw [ihm, List.append_cons buffer c rest]
      · intro c2 hc2
        rw [List.append_cons buffer c rest] at hc2
        exact ihmem _ hc2

/-- C7: with the seeding flag set, `enqueue` and `enqueue_batch` skip the
in-flight membership check entirely (no membership query is issued): every
coordinate is pushed to the delivery queue regardless of the index, and its
dedup key is still added to the index afterwards. -/
theorem C7_seeding_bypass (st : SqsState) (c : Coord) (coords : List Coord)
    (hseed : st.is_seeding = true) :
    (SqsQueue.enqueue st c).1.messages
        = st.messages ++ [Message.mk st.nextId (serialize_coord c)] ∧
    coord_marshall_int c ∈ (SqsQueue.enqueue st c).1.inflightSet ∧
    (∀ k, Event.redisSismember k ∉ (SqsQueue.enqueue st c).2) ∧
    (SqsQueue.enqueue_batch st coords).2.1 = coords.length ∧
    (SqsQueue.enqueue_batch st coords).2.2.1 = 0 ∧
    (SqsQueue.enqueue_batch st coords).1.messages.map Message.body
        = st.messages.map Message.body ++ coords.map serialize_coord ∧
    (∀ c2 ∈ coords, coord_marshall_int c2
        ∈ (SqsQueue.enqueue_batch st coords).1.inflightSet) ∧
    (∀ k, Event.redisSismember k
        ∉ (SqsQueue.enqueue_batch st coords).2.2.2) := by
  obtain ⟨hq, hf, hm, _, hmem, _, hev⟩ :=
    enqueue_batch_loop_seeding coords st [] 0 0 hseed
  refine ⟨?_, ?_, ?_, by simpa using hq, hf, by simpa using hm,
    fun c2 hc2 => hmem c2 (by simpa using hc2), hev⟩
  · simp [SqsQueue.enqueue, SqsQueue.inflight, SqsQueue.add_to_flight, hseed]
  · simp [SqsQueue.enqueue, SqsQueue.inflight, SqsQueue.add_to_flight, hseed]
  · intro k
    simp [SqsQueue.enqueue, SqsQueue.inflight, SqsQueue.add_to_flight, hseed]

/-- C7 witness: instantiation at a concrete seeding-mode state. -/
theorem C7_seeding_bypass_witness :
    (SqsQueue.enqueue stSeed cW).1.messages
        = stSeed.messages ++ [Message.mk stSeed.nextId (serialize_coord cW)] ∧
    coord_marshall_int cW ∈ (SqsQueue.enqueue stSeed cW).1.inflightSet ∧
    (SqsQueue.enqueue_batch stSeed [cW, cW]).2.1 = 2 ∧
    (SqsQueue.enqueue_batch stSeed [cW, cW]).2.2.1 = 0 :=
  ⟨(C7_seeding_bypass stSeed cW [cW, cW] rfl).1,
   (C7_seeding_bypass stSeed cW [cW, cW] rfl).2.1,
   (C7_seeding_bypass stSeed cW [cW, cW] rfl).2.2.2.1,
   (C7_seeding_bypass stSeed cW [cW, cW] rfl).2.2.2.2.1⟩

/-- C8 counterexample: constructing the queue with an unreachable index
store does not raise at construction time - the build succeeds, because the
index client only connects lazily on first use. -/
theorem C8_counterexample :
    envUnreachable.redisReachable = false ∧
    get_sqs_queue envUnreachable "tiles"
      = Except.ok { is_seeding := false, inflightSet := ∅,
                    messages := [], nextId := 0 } :=
  ⟨rfl, rfl⟩

/-- C8 (amended): construction fails fast with a configuration error on a
nonexistent delivery-queue name, before any queue operation; but an
unreachable index store is not detected at construction - the outcome of
construction is independent of the index store's reachability, whose errors
surface only on first use. -/
theorem C8_construction (env : SqsEnv) (queue_name : String) :
    (env.queues queue_name = none →
      get_sqs_queue env queue_name
        = Except.error ("Could not get sqs queue with name: " ++ queue_name)) ∧
    (∀ msgs, env.queues queue_name = some msgs →
      get_sqs_queue env queue_name
        = Except.ok { is_seeding := false, inflightSet := env.redisSet,
                      messages := msgs, nextId := 0 }) ∧
    get_sqs_queue { env with redisReachable := false } queue_name
      = get_sqs_queue { env with redisReachable := true } queue_name := by
  refine ⟨?_, ?_, rfl⟩
  · intro h
    unfold get_sqs_queue
    rw [h]
  · intro msgs h
    unfold get_sqs_queue
    rw [h]

/-- C8 witness: instantiation at concrete environments. -/
theorem C8_construction_witness :
    get_sqs_queue envNoQueue "tiles"
      = Except.error ("Could not get sqs queue with name: " ++ "tiles") ∧
    get_sqs_queue envUnreachable "tiles"
      = Except.ok { is_seeding := false, inflightSet := envUnreachable.redisSet,
                    messages := [], nextId := 0 } :=
  ⟨(C8_construction envNoQueue "tiles").1 rfl,
   (C8_construction envUnreachable "tiles").2.1 [] rfl⟩

/-- When no coordinate of the input is in flight and everything fits in one
chunk, the `enqueue_batch` loop sends a single batch at the end: the gate
never sees the keys of coordinates buffered earlier in the same chunk. -/
theorem enqueue_batch_loop_small (coords : List Coord) :
    ∀ (st : SqsState) (buffer : List Coord) (q f : Nat),
      st.is_seeding = false →
      (∀ c ∈ coords, coord_marshall_int c ∉ st.inflightSet) →
      buffer.length + coords.length ≤ 10 →
      buffer.length ≤ 9 →
      (SqsQueue.enqueue_batch_loop st coords buffer q f).1
          = (SqsQueue.write_batch st (buffer ++ coords)).1 ∧
      (SqsQueue.enqueue_batch_loop st coords buffer q f).2.1
          = q + coords.length ∧
      (SqsQueue.enqueue_batch_loop st coords buffer q f).2.2.1 = f := by
  induction coords with
  | nil =>
    intro st buffer q f hseed hni hlen hb9
    by_cases hb : buffer.isEmpty
    · have hbe := List.isEmpty_iff.mp hb
      subst hbe
      refine ⟨?_, by simp [SqsQueue.enqueue_batch_loop], ?_⟩
      · simp [SqsQueue.enqueue_batch_loop, SqsQueue.write_batch]
      · simp [SqsQueue.enqueue_batch_loop]
    · simp only [SqsQueue.enqueue_batch_loop, hb, Bool.false_eq_true,
        if_false, List.append_nil, List.length_nil, Nat.add_zero]
      refine ⟨?_, ?_, ?_⟩ <;> trivial
  | cons c rest ih =>
    intro st buffer q f hseed hni hlen hb9
    have h0 : (SqsQueue.inflight st c).1 = false := by
      simp [SqsQueue.inflight, hseed, hni c (List.mem_cons_self c rest)]
    by_cases hflush : (buffer ++ [c]).length = 10
    · have hrest : rest = [] := by
        apply List.eq_nil_of_length_eq_zero
        simp only [List.length_append, List.length_singleton] at hflush
        simp only [List.length_cons] at hlen
        omega
      subst hrest
      simp only [SqsQueue.enqueue_batch_loop, h0, Bool.false_eq_true,
        if_false, hflush, if_true, List.isEmpty_nil, List.length_cons,
        List.length_nil]
      refine ⟨?_, ?_, ?_⟩ <;> trivial
    · have hb9' : (buffer ++ [c]).length ≤ 9 := by
        simp only [List.length_append, List.length_singleton] at hflush ⊢
        simp only [List.length_cons] at hlen
        omega
      have hni' : ∀ c2 ∈ rest, coord_marshall_int c2 ∉ st.inflightSet :=
        fun c2 h => hni c2 (List.mem_cons_of_mem c h)
      obtain ⟨ih1, ih2, ih3⟩ := ih st (buffer ++ [c]) (q + 1) f hseed hni'
        (by
          simp only [List.length_append, List.length_singleton]
          simp only [List.length_cons] at hlen
          omega)
        hb9'
      simp only [SqsQueue.enqueue_batch_loop, h0, Bool.false_eq_true,
        if_false, hflush, List.length_cons]
      refine ⟨?_, ?_, ih3⟩
      · rw [ih1]
        simp [List.append_assoc]
      · rw [ih2]
        omega

/-- When the first ten coordinates are not in flight, the `enqueue_batch`
loop flushes them as one chunk and continues on the remaining input with an
empty buffer, against a state whose index now holds that chunk's keys. -/
theorem enqueue_batch_loop_flush (coords : List Coord) :
    ∀ (st : SqsState) (buffer : List Coord) (q f : Nat) (extra : List Coord),
      st.is_seeding = false →
      (∀ c ∈ coords, coord_marshall_int c ∉ st.inflightSet) →
      buffer.length + coords.length = 10 →
      buffer.length ≤ 9 →
      (SqsQueue.enqueue_batch_loop st (coords ++ extra) buffer q f).1
          = (SqsQueue.enqueue_batch_loop
              (SqsQueue.write_batch st (buffer ++ coords)).1 extra []
              (q + coords.length) f).1 ∧
      (SqsQueue.enqueue_batch_loop st (coords ++ extra) buffer q f).2.1
          = (SqsQueue.enqueue_batch_loop
              (SqsQueue.write_batch st (buffer ++ coords)).1 extra []
              (q + coords.length) f).2.1 ∧
      (SqsQueue.enqueue_batch_loop st (coords ++ extra) buffer q f).2.2.1
          = (SqsQueue.enqueue_batch_loop
              (SqsQueue.write_batch st (buffer ++ coords)).1 extra []
              (q + coords.length) f).2.2.1 := by
  induction coords with
  | nil =>
    intro st buffer q f extra hseed hni hlen hb9
    simp only [List.length_nil, Nat.add_zero] at hlen
    omega
  | cons c rest ih =>
    intro st buffer q f extra hseed hni hlen hb9
    have h0 : (SqsQueue.inflight st c).1 = false := by
      simp [SqsQueue.inflight, hseed, hni c (List.mem_cons_self c rest)]
    by_cases hflush : (buffer ++ [c]).length = 10
    · have hrest : rest = [] := by
        apply List.eq_nil_of_length_eq_zero
        simp only [List.length_append, List.length_singleton] at hflush
        simp only [List.length_cons] at hlen
        omega
      subst hrest
      simp only [List.cons_append, List.nil_append,
        SqsQueue.enqueue_batch_loop, h0, Bool.false_eq_true, if_false,
        hflush, if_true, List.length_cons, List.length_nil]
      exact ⟨rfl, rfl, rfl⟩
    · have hb9' : (buffer ++ [c]).length ≤ 9 := by
        simp only [List.length_append, List.length_singleton] at hflush ⊢
        simp only [List.length_cons] at hlen
        omega
      have hni' : ∀ c2 ∈ rest, coord_marshall_int c2 ∉ st.inflightSet :=
        fun c2 h => hni c2 (List.mem_cons_of_mem c h)
      obtain ⟨ih1, ih2, ih3⟩ := ih st (buffer ++ [c]) (q + 1) f extra hseed
        hni'
        (by
          simp only [List.length_append, List.length_singleton]
          simp only [List.length_cons] at hlen
          omega)
        hb9'
      have e1 : (buffer ++ [c]) ++ rest = buffer ++ c :: rest :=
        (List.append_cons _ _ _).symm
      have e2 : q + 1 + rest.length = q + (c :: rest).length := by
        simp only [List.length_cons]
        omega
      rw [e1, e2] at ih1 ih2 ih3
      simp only [List.cons_append, SqsQueue.enqueue_batch_loop, h0,
        Bool.false_eq_true, if_false, hflush]
      exact ⟨ih1, ih2, ih3⟩

/-- C9: within one `enqueue_batch`, the dedup gate only sees keys already
flushed to the index.  A duplicated not-in-flight coordinate whose two
occurrences fall in the same unflushed chunk is pushed and counted twice;
when a chunk boundary lies between the two occurrences (here after nine
padding coordinates, so the first occurrence completes a chunk of 10), the
second occurrence is seen in flight and skipped. -/
theorem C9_batch_dedup_window (st : SqsState) (c : Coord) (pad : List Coord)
    (hseed : st.is_seeding = false)
    (hc : coord_marshall_int c ∉ st.inflightSet)
    (hpad : pad.length = 9)
    (hpadni : ∀ p ∈ pad, coord_marshall_int p ∉ st.inflightSet) :
    (SqsQueue.enqueue_batch st [c, c]).2.1 = 2 ∧
    (SqsQueue.enqueue_batch st [c, c]).2.2.1 = 0 ∧
    (SqsQueue.enqueue_batch st [c, c]).1.messages.map Message.body
        = st.messages.map Message.body
            ++ [serialize_coord c, serialize_coord c] ∧
    (SqsQueue.enqueue_batch st (pad ++ [c, c])).2.1 = 10 ∧
    (SqsQueue.enqueue_batch st (pad ++ [c, c])).2.2.1 = 1 := by
  have hni2 : ∀ x ∈ [c, c], coord_marshall_int x ∉ st.inflightSet := by
    intro x hx
    rcases List.mem_cons.mp hx with h | h
    · subst h; exact hc
    · rcases List.mem_singleton.mp h with rfl; exact hc
  obtain ⟨h1, h2, h3⟩ := enqueue_batch_loop_small [c, c] st [] 0 0 hseed hni2
    (by simp) (by simp)
  have hnichunk : ∀ x ∈ pad ++ [c], coord_marshall_int x ∉ st.inflightSet := by
    intro x hx
    rcases List.mem_append.mp hx with h | h
    · exact hpadni x h
    · rcases List.mem_singleton.mp h with rfl; exact hc
  obtain ⟨b1, b2, b3⟩ := enqueue_batch_loop_flush (pad ++ [c]) st [] 0 0 [c]
    hseed hnichunk (by simp [hpad]) (by simp)
  have hsplit : pad ++ [c, c] = (pad ++ [c]) ++ [c] := by
    simp [List.append_assoc]
  have hchunklen : (pad ++ [c]).length = 10 := by simp [hpad]
  simp only [List.nil_append, Nat.zero_add] at b1 b2 b3
  rw [hchunklen] at b2 b3
  have hseed1 :
      (SqsQueue.write_batch st (pad ++ [c])).1.is_seeding = false := by
    rw [write_batch_is_seeding]; exact hseed
  have hmem1 : coord_marshall_int c
      ∈ (SqsQueue.write_batch st (pad ++ [c])).1.inflightSet := by
    refine (write_batch_inflightSet st _ _).mpr (Or.inr ?_)
    exact List.mem_map_of_mem _ (by simp)
  have h0 : (SqsQueue.inflight
      (SqsQueue.write_batch st (pad ++ [c])).1 c).1 = true := by
    simp [SqsQueue.inflight, hseed1, hmem1]
  have htail : ∀ (q0 f0 : Nat),
      (SqsQueue.enqueue_batch_loop
        (SqsQueue.write_batch st (pad ++ [c])).1 [c] [] q0 f0).2.1 = q0 ∧
      (SqsQueue.enqueue_batch_loop
        (SqsQueue.write_batch st (pad ++ [c])).1 [c] [] q0 f0).2.2.1
        = f0 + 1 := by
    intro q0 f0
    simp [SqsQueue.enqueue_batch_loop, h0]
  refine ⟨?_, ?_, ?_, ?_, ?_⟩
  · rw [SqsQueue.enqueue_batch, h2]
    simp
  · rw [SqsQueue.enqueue_batch, h3]
  · rw [SqsQueue.enqueue_batch, h1, write_batch_messages]
    simp
  · rw [SqsQueue.enqueue_batch, hsplit, b2]
    exact (htail 10 0).1
  · rw [SqsQueue.enqueue_batch, hsplit, b3]
    exact (htail 10 0).2

/-- C9 witness: instantiation at concrete coordinates and padding. -/
theorem C9_batch_dedup_window_witness :
    (SqsQueue.enqueue_batch stEmpty [cW, cW]).2.1 = 2 ∧
    (SqsQueue.enqueue_batch stEmpty [cW, cW]).2.2.1 = 0 ∧
    (SqsQueue.enqueue_batch stEmpty (padW ++ [cW, cW])).2.1 = 10 ∧
    (SqsQueue.enqueue_batch stEmpty (padW ++ [cW, cW])).2.2.1 = 1 :=
  ⟨(C9_batch_dedup_window stEmpty cW padW rfl (by decide) (by decide)
      (by decide)).1,
   (C9_batch_dedup_window stEmpty cW padW rfl (by decide) (by decide)
      (by decide)).2.1,
   (C9_batch_dedup_window stEmpty cW padW rfl (by decide) (by decide)
      (by decide)).2.2.2.1,
   (C9_batch_dedup_window stEmpty cW padW rfl (by decide) (by decide)
      (by decide)).2.2.2.2⟩

/-- C1 witness: instantiation at a concrete empty non-seeding state. -/
theorem C1_enqueue_dedup_witness :
    ((SqsQueue.enqueue stEmpty cW).1.messages
          = stEmpty.messages ++ [Message.mk stEmpty.nextId (serialize_coord cW)] ∧
      (SqsQueue.enqueue stEmpty cW).1.inflightSet
          = insert (coord_marshall_int cW) stEmpty.inflightSet) ∧
    (SqsQueue.enqueue (SqsQueue.enqueue stEmpty cW).1 cW).1.messages.countP
        (fun m => m.body == serialize_coord cW) = 1 :=
  ⟨(C1_enqueue_dedup stEmpty cW rfl).2.1 (by decide),
   (C1_enqueue_dedup stEmpty cW rfl).2.2 (by decide) (by decide)⟩

/-- A batched decode fails as a whole as soon as any body fails to decode. -/
theorem decode_all_none_of_mem (msgs : List Message) (m : Message)
    (hm : m ∈ msgs) (hd : deserialize_coord m.body = none) :
    SqsQueue.decode_all msgs = none := by
  induction msgs with
  | nil => cases hm
  | cons hd2 tl ih =>
    rcases List.mem_cons.mp hm with h | h
    · subst h
      simp [SqsQueue.decode_all, hd]
    · cases hdec : deserialize_coord hd2.body <;>
        simp [SqsQueue.decode_all, hdec, ih h]

/-- Every pair returned by `read` carries a message whose body decodes to
the paired coordinate. -/
theorem read_mem_decodes (st : SqsState) (n : Nat) (cm : CoordMessage)
    (hcm : cm ∈ (SqsQueue.read st n).2.1) :
    deserialize_coord cm.message.body = some cm.coord := by
  simp only [SqsQueue.read, List.mem_filterMap] at hcm
  obtain ⟨m, _, heq⟩ := hcm
  cases hdec : deserialize_coord m.body with
  | none => rw [hdec] at heq; cases heq
  | some c =>
    rw [hdec] at heq
    cases heq
    exact hdec

/-- C10: `job_done` and `jobs_done` require every handle's body to decode:
a body that decodes to none makes the operation fail before any index or
queue mutation (unlike `read`, which skips such a message); and for any
handle returned by `read` the body does decode, so under that precondition
the error branch is unreachable. -/
theorem C10_ack_requires_decodable :
    (∀ (st : SqsState) (m : Message),
      deserialize_coord m.body = none → SqsQueue.job_done st m = none) ∧
    (∀ (st : SqsState) (msgs : List Message) (m : Message),
      m ∈ msgs → deserialize_coord m.body = none →
      SqsQueue.jobs_done st msgs = none) ∧
    (∀ (st : SqsState) (n : Nat) (cm : CoordMessage),
      cm ∈ (SqsQueue.read st n).2.1 →
      ∀ st2 : SqsState, (SqsQueue.job_done st2 cm.message).isSome = true) := by
  refine ⟨?_, ?_, ?_⟩
  · intro st m hd
    unfold SqsQueue.job_done
    rw [hd]
  · intro st msgs m hm hd
    unfold SqsQueue.jobs_done
    rw [decode_all_none_of_mem msgs m hm hd]
  · intro st n cm hcm st2
    have hd := read_mem_decodes st n cm hcm
    unfold SqsQueue.job_done
    rw [hd]
    rfl

/-- C10 witness: instantiation at concrete decodable and undecodable
handles. -/
theorem C10_ack_requires_decodable_witness :
    SqsQueue.job_done stEmpty mBad = none ∧
    SqsQueue.jobs_done stEmpty [mW, mBad] = none ∧
    (SqsQueue.job_done stEmpty (CoordMessage.mk cW mW).message).isSome
      = true :=
  ⟨C10_ack_requires_decodable.1 stEmpty mBad (by decide),
   C10_ack_requires_decodable.2.1 stEmpty [mW, mBad] mBad (by decide)
     (by decide),
   C10_ack_requires_decodable.2.2 stRead 5 (CoordMessage.mk cW mW)
     (by decide) stEmpty⟩

/-- C2 witness: instantiation at a concrete single-coordinate batch. -/
theorem C2_batch_accounting_witness :
    (SqsQueue.enqueue_batch stEmpty [cW]).2.1 +
        (SqsQueue.enqueue_batch stEmpty [cW]).2.2.1 = 1 ∧
    ([(toString (0 : Nat), serialize_coord cW, (0 : Nat))]
        : List (String × String × Nat)).length ≤ 10 :=
  ⟨(C2_batch_accounting stEmpty [cW]).1,
   (C2_batch_accounting stEmpty [cW]).2
     [(toString (0 : Nat), serialize_coord cW, (0 : Nat))] (by decide)⟩

/-- C4 witness: instantiation at a state holding one decodable and one
undecodable message. -/
theorem C4_read_skips_undecodable_witness :
    (SqsQueue.read stRead 5).1 = stRead ∧
    (SqsQueue.read stRead 5).2.1.length ≤ 5 ∧
    (CoordMessage.mk cW mW).message ≠ mBad :=
  ⟨(C4_read_skips_undecodable stRead 5).1,
   (C4_read_skips_undecodable stRead 5).2.1,
   (C4_read_skips_undecodable stRead 5).2.2.2.2.1 mBad (by decide) (by decide)
     (CoordMessage.mk cW mW) (by decide)⟩
